import Mathlib

/-!
Verification of the SSHFerry file-transfer engine against its design
specification.  The Python sources are shallowly embedded: pure functions
become Lean functions over `List Char` / `String`, stateful operations become
explicit state passing, and the SSH wire is abstracted as an oracle
parameter.  Every definition is translated from the corresponding source
function (file and symbol named in its doc comment) unless the doc comment
says `Modelled from the spec:`.
-/

namespace SSHFerry

/-! ## Path model (src/shared/paths.py and the Python posixpath.normpath) -/

/-- One step of Python `str.split('/')`, building the component list from the
right: a slash opens a new (initially empty) component, any other character is
prepended to the current first component. -/
def splitStep (c : Char) (r : List (List Char)) : List (List Char) :=
  if c = '/' then [] :: r
  else
    match r with
    | h :: t => (c :: h) :: t
    | [] => [[c]]

/-- Python `str.split('/')` on a list of characters.  `splitSlash [] = [[]]`,
matching `"".split("/") == [""]`. -/
def splitSlash (l : List Char) : List (List Char) :=
  l.foldr splitStep [[]]

/-- Python `'/'.join(comps)` on lists of characters. -/
def joinSlash : List (List Char) → List Char
  | [] => []
  | [c] => c
  | c :: c2 :: cs => c ++ '/' :: joinSlash (c2 :: cs)

/-- The `initial_slashes` computation of `posixpath.normpath`: `1` for a path
starting with one slash (or three or more), `2` for a path starting with
exactly two slashes (POSIX-reserved), `0` for a relative path. -/
def initSlashesL (l : List Char) : Nat :=
  if l.head? = some '/' then
    if (l.drop 1).head? = some '/' then
      if (l.drop 2).head? = some '/' then 1 else 2
    else 1
  else 0

/-- One iteration of the component loop of `posixpath.normpath`: skip empty
and `"."` components; append a component unless it is `".."` that can cancel
(for absolute paths, or when a normal component is on the stack); otherwise
pop.  The accumulator is the reversed `new_comps` stack of the Python code. -/
def npStep (absolute : Bool) (acc : List (List Char)) (comp : List Char) :
    List (List Char) :=
  if comp = [] ∨ comp = ['.'] then acc
  else if comp ≠ ['.', '.'] ∨ (absolute = false ∧ acc = []) ∨
      acc.head? = some ['.', '.'] then comp :: acc
  else acc.tail

/-- The final component list produced by `posixpath.normpath` (in order). -/
def npComps (absolute : Bool) (l : List Char) : List (List Char) :=
  ((splitSlash l).foldl (npStep absolute) []).reverse

/-- Python `posixpath.normpath` on a list of characters. -/
def normpathL (l : List Char) : List Char :=
  let k := initSlashesL l
  let comps := npComps (decide (k ≠ 0)) l
  let out := List.replicate k '/' ++ joinSlash comps
  if out = [] then ['.'] else out

/-- List-of-characters version of `normalize_remote_path`
(src/shared/paths.py): `posixpath.normpath`, then prefix a slash when the
result is not absolute. -/
def normalizeL (l : List Char) : List Char :=
  let n := normpathL l
  if n.head? = some '/' then n else '/' :: n

/-- `normalize_remote_path` from src/shared/paths.py. -/
def normalize_remote_path (s : String) : String :=
  ⟨normalizeL s.data⟩

/-- Python `s.startswith(pre)` on lists of characters. -/
def startsWithL : List Char → List Char → Bool
  | _, [] => true
  | [], _ :: _ => false
  | c :: s, p :: pre => if c = p then startsWithL s pre else false

/-- Result of the sandbox check: the Python function either returns `None` or
raises `ValidationError` (error code `VALIDATION_FAILED`). -/
inductive SandboxResult where
  | passed
  | validationFailed
  deriving DecidableEq

/-- `ensure_in_sandbox` from src/shared/paths.py: normalize both arguments,
pass when the path equals the root or starts with the root followed by a
slash, otherwise raise `ValidationError`. -/
def ensure_in_sandbox (path remote_root : String) : SandboxResult :=
  let np := normalize_remote_path path
  let nr := normalize_remote_path remote_root
  if np = nr then .passed
  else if startsWithL np.data (nr.data ++ ['/']) then .passed
  else .validationFailed

/-- Normal path component: nonempty, not `"."`, not `".."`, slash-free.  The
component stack of `posixpath.normpath` on an absolute path contains only
such components. -/
def GoodComp (c : List Char) : Prop :=
  c ≠ [] ∧ c ≠ ['.'] ∧ c ≠ ['.', '.'] ∧ '/' ∉ c

instance (c : List Char) : Decidable (GoodComp c) := by
  unfold GoodComp; infer_instance

/-- No two adjacent slashes occur in the character list ("no duplicate `/`
separators" of the spec). -/
def noAdjSlash : List Char → Bool
  | [] => true
  | [_] => true
  | a :: b :: rest => !(a = '/' && b = '/') && noAdjSlash (b :: rest)

/-! ## Recursive delete (spec §4.4 / §6; callers in src/ui/main_window.py,
tests/test_recursive_delete.py — the method itself is absent from src/) -/

/-- The single-quote character, written via its code point. -/
def quoteChar : Char := Char.ofNat 39

/-- Wrap a string in single quotes, as the recursive-delete shell command
does. -/
def squote (s : String) : String :=
  String.singleton quoteChar ++ s ++ String.singleton quoteChar

/-- Modelled from the spec: the exact remote shell command issued by
`removeDirRecursive` — `rm -rf <normalized-path>` (single-quoted) (spec §6). -/
def rd_command (path : String) : String :=
  "rm -rf " ++ squote (normalize_remote_path path)

/-- Outcome of `removeDirRecursive`: success, the safety-gate rejection, the
sandbox rejection, or a nonzero exit status of the remote command. -/
inductive RDOutcome where
  | ok
  | refusedRoot
  | validationFailed
  | exitNonzero
  deriving DecidableEq

/-- Modelled from the spec: `removeDirRecursive(path)` (spec §4.4, §6); the
method is not present under src/ (only its tests and callers are).  Safety
gate first (reject `/` and the sandbox root) with no wire traffic, then the
sandbox check, then the `rm -rf <normalized-path>` (single-quoted) command on the exec
channel, succeeding iff the exit status is 0.  `wire` maps an issued command
to its exit status; the returned list is the trace of commands issued. -/
def remove_dir_recursive (wire : String → Nat) (remote_root path : String) :
    List String × RDOutcome :=
  let np := normalize_remote_path path
  let nr := normalize_remote_path remote_root
  if np = "/" ∨ np = nr then ([], .refusedRoot)
  else
    match ensure_in_sandbox path remote_root with
    | .validationFailed => ([], .validationFailed)
    | .passed =>
      let cmd := rd_command path
      if wire cmd = 0 then ([cmd], .ok) else ([cmd], .exitNonzero)

/-! ## Call compatibility of the single-session transfer API (C3) -/

/-- Membership test on a list of strings (Python `in`). -/
def memStr (x : String) : List String → Bool
  | [] => false
  | y :: rest => if x = y then true else memStr x rest

/-- Parameter names of `SftpEngine.upload_file` as defined in
src/engines/sftp_engine.py (lines 228-252). -/
def sftp_upload_file_params : List String :=
  ["self", "local_path", "remote_path", "callback"]

/-- Parameter names of `SftpEngine.download_file` as defined in
src/engines/sftp_engine.py (lines 254-281). -/
def sftp_download_file_params : List String :=
  ["self", "remote_path", "local_path", "callback"]

/-- Keyword arguments passed by `TaskScheduler._execute_upload` (and
`_execute_download`) to `engine.upload_file` / `engine.download_file`
(src/core/scheduler.py lines 447 and 523). -/
def scheduler_transfer_call_kwargs : List String :=
  ["callback", "check_interrupt", "offset"]

/-- A Python call binds without a `TypeError` from unexpected keywords only
when every keyword argument names a parameter of the callee. -/
def python_kwargs_accepted (params kwargs : List String) : Bool :=
  kwargs.all (fun k => memStr k params)

/-! ## Task state machine (src/core/task_state.py, src/shared/models.py,
src/core/scheduler.py) -/

/-- Lookup in an association list of states (Python dict literal access
order is irrelevant here: keys are distinct). -/
def lookupState (s : String) : List (String × List String) → Option (List String)
  | [] => none
  | (k, v) :: rest => if s = k then some v else lookupState s rest

/-- `TRANSITIONS` from src/core/task_state.py. -/
def TRANSITIONS : List (String × List String) :=
  [("pending", ["running", "canceled"]),
   ("running", ["done", "failed", "paused", "canceled"]),
   ("paused", ["running", "canceled"]),
   ("done", []),
   ("failed", []),
   ("canceled", [])]

/-- `is_valid_transition` from src/core/task_state.py:
`target in TRANSITIONS.get(current, set())`. -/
def is_valid_transition (current target : String) : Bool :=
  match lookupState current TRANSITIONS with
  | some l => memStr target l
  | none => false

/-- `TERMINAL_STATES` from src/core/task_state.py. -/
def TERMINAL_STATES : List String := ["done", "failed", "canceled"]

/-- `Task.is_finished` from src/shared/models.py (lines 96-99):
`status in ("done", "failed", "canceled")`. -/
def task_is_finished (status : String) : Bool :=
  memStr status TERMINAL_STATES

/-- The statuses accepted by `TaskScheduler.restart_task`
(src/core/scheduler.py line 224): `("failed", "canceled", "done", "skipped")`. -/
def restart_accepted_states : List String :=
  ["failed", "canceled", "done", "skipped"]

/-! ## Scheduler smart pre-check (src/core/scheduler.py, _execute_upload) -/

/-- The fields of `Task` (src/shared/models.py) read or written by the
smart pre-check of `TaskScheduler._execute_upload`; the remaining fields of
the Python dataclass do not participate in the claims settled here. -/
structure Task where
  status : String := "pending"
  bytes_done : Nat := 0
  skipped : Bool := false
  deriving DecidableEq

/-- Decision of the smart pre-check in `TaskScheduler._execute_upload`
(src/core/scheduler.py lines 408-428): compare the remote stat size (none
when `stat` raised) with the local size. -/
inductive PrecheckDecision where
  | skipDone (bytesDone : Nat)
  | upload (offset : Nat)
  deriving DecidableEq

/-- The smart pre-check of `_execute_upload`: equal size → skip; remote
smaller → resume from the remote size; remote larger or missing → offset 0. -/
def smart_precheck (local_size : Nat) (remote_size : Option Nat) :
    PrecheckDecision :=
  match remote_size with
  | none => .upload 0
  | some r =>
    if r = local_size then .skipDone local_size
    else if r < local_size then .upload r
    else .upload 0

/-- Effect of `_execute_upload` up to the engine call: on skip the task is
marked `skipped` with `bytes_done = local_size` and the function returns
(no transfer is issued, `none`); otherwise the task is untouched and an
upload with the decided offset is issued (`some offset`). -/
def execute_upload_step (t : Task) (local_size : Nat)
    (remote_size : Option Nat) : Task × Option Nat :=
  match smart_precheck local_size remote_size with
  | .skipDone b => ({ t with status := "skipped", skipped := true, bytes_done := b }, none)
  | .upload o => (t, some o)

/-! ## Metrics collector (src/services/metrics.py) -/

/-- `TransferRecord` from src/services/metrics.py.  `duration_seconds` is a
Python float; it is carried as a natural number of milliseconds because no
claim settled here reads it (only `preset` and `success` feed the
recommendation algorithm). -/
structure TransferRecord where
  preset : String
  bytes_transferred : Nat := 0
  duration_ms : Nat := 0
  success : Bool
  timestamp : Int := 0
  deriving DecidableEq

/-- The mutable state of `MetricsCollector`: `records`, `current_preset`,
`last_preset_change`.  Timestamps are integers (seconds); the claims compare
only differences against the 300-second cooldown. -/
structure MetricsState where
  records : List TransferRecord
  current_preset : String
  last_preset_change : Int
  deriving DecidableEq

/-- `PRESET_ORDER` from src/services/metrics.py. -/
def PRESET_ORDER : List String := ["low", "medium", "high"]

/-- Python `list.index`, returning `none` where Python raises `ValueError`. -/
def indexOfStr (x : String) : List String → Option Nat
  | [] => none
  | y :: rest => if x = y then some 0 else (indexOfStr x rest).map (· + 1)

/-- Python `l[-n:]`. -/
def lastN (n : Nat) (l : List α) : List α :=
  l.drop (l.length - n)

/-- The considered window of `get_recommended_preset`: the last
`SAMPLE_WINDOW = 10` records filtered to the current preset
(src/services/metrics.py lines 137-138). -/
def windowOf (st : MetricsState) : List TransferRecord :=
  (lastN 10 st.records).filter (fun r => decide (r.preset = st.current_preset))

/-- Number of successful records in a list. -/
def successCount (l : List TransferRecord) : Nat :=
  (l.filter (fun r => r.success)).length

/-- `MetricsCollector.get_recommended_preset` (src/services/metrics.py lines
121-172) as a pure function of the state and the current time.  Returns the
recommended preset, the new state, and whether `_save` was called; `none`
models the `ValueError` that `PRESET_ORDER.index` raises when
`current_preset` is not a preset name.  The float comparisons
`success_rate < 1 - 0.20` and `success_rate ≥ 0.95` are rendered as the
exact rational comparisons `5*successes < 4*n` and `19*n ≤ 20*successes`;
these agree with the IEEE-double comparisons of the source for every window
(the window holds at most 10 records, and no fraction with denominator ≤ 10
falls between the rational and the floating-point thresholds). -/
def get_recommended_preset (st : MetricsState) (now : Int) :
    Option (String × MetricsState × Bool) :=
  if st.records = [] then some ("low", st, false)
  else if now - st.last_preset_change < 300 then some (st.current_preset, st, false)
  else
    let recent := windowOf st
    if recent.length < 3 then some (st.current_preset, st, false)
    else
      let sc := successCount recent
      match indexOfStr st.current_preset PRESET_ORDER with
      | none => none
      | some idx =>
        if 5 * sc < 4 * recent.length ∧ 0 < idx then
          let np := PRESET_ORDER.getD (idx - 1) st.current_preset
          some (np, { st with current_preset := np, last_preset_change := now }, true)
        else if 19 * recent.length ≤ 20 * sc ∧ idx < 2 then
          let np := PRESET_ORDER.getD (idx + 1) st.current_preset
          some (np, { st with current_preset := np, last_preset_change := now }, true)
        else some (st.current_preset, st, false)

/-! ## Site store (src/services/site_store.py, src/shared/models.py) -/

/-- `SiteConfig` from src/shared/models.py. -/
structure SiteConfig where
  name : String
  host : String
  port : Int
  username : String
  auth_method : String
  remote_root : String
  password : Option String := none
  key_path : Option String := none
  key_passphrase : Option String := none
  mscp_path : Option String := none
  proxy_jump : Option String := none
  ssh_config_path : Option String := none
  ssh_options : List String := []
  deriving DecidableEq

/-- JSON values occurring in a saved site record. -/
inductive JVal where
  | str (s : String)
  | num (n : Int)
  | opt (v : Option String)
  | arr (xs : List String)
  deriving DecidableEq

/-- `_PERSIST_FIELDS` from src/services/site_store.py. -/
def persistFields : List String :=
  ["name", "host", "port", "username", "auth_method", "remote_root",
   "key_path", "proxy_jump", "ssh_config_path", "ssh_options"]

/-- One saved site: `SiteStore.save` writes `{f: getattr(site, f) for f in
_PERSIST_FIELDS}` (src/services/site_store.py lines 60-67). -/
def save_site (c : SiteConfig) : List (String × JVal) :=
  [("name", .str c.name), ("host", .str c.host), ("port", .num c.port),
   ("username", .str c.username), ("auth_method", .str c.auth_method),
   ("remote_root", .str c.remote_root), ("key_path", .opt c.key_path),
   ("proxy_jump", .opt c.proxy_jump),
   ("ssh_config_path", .opt c.ssh_config_path),
   ("ssh_options", .arr c.ssh_options)]

/-- `SiteStore.save` over a list of sites. -/
def save_sites (sites : List SiteConfig) : List (List (String × JVal)) :=
  sites.map save_site

/-- JSON object lookup (Python `item[k]` / `item.get(k, d)`). -/
def jget : List (String × JVal) → String → Option JVal
  | [], _ => none
  | (k, v) :: rest, s => if s = k then some v else jget rest s

/-- Loading one site record, per `SiteStore.load` (src/services/site_store.py
lines 35-58) followed by `SiteConfig.__post_init__` validation
(src/shared/models.py lines 33-38): `name`, `host`, `username` required;
`port` defaults to 22; `auth_method` defaults to `"password"`;
`remote_root` missing, null or empty becomes `"/"` (`item.get(...) or "/"`);
secrets and `mscp_path` are never read back.  `none` models the exception
path (which makes the Python loader return `[]`). -/
def load_site (item : List (String × JVal)) : Option SiteConfig :=
  match jget item "name", jget item "host", jget item "username" with
  | some (.str name), some (.str host), some (.str username) =>
    let port := match jget item "port" with | some (.num n) => n | _ => 22
    let auth := match jget item "auth_method" with | some (.str s) => s | _ => "password"
    let rr0 := match jget item "remote_root" with | some (.str s) => s | _ => "/"
    let rr := if rr0 = "" then "/" else rr0
    let kp := match jget item "key_path" with | some (.opt v) => v | _ => none
    let pj := match jget item "proxy_jump" with | some (.opt v) => v | _ => none
    let scp := match jget item "ssh_config_path" with | some (.opt v) => v | _ => none
    let so := match jget item "ssh_options" with | some (.arr xs) => xs | _ => []
    if (auth = "password" ∨ auth = "key") ∧ 0 < port ∧ port ≤ 65535 then
      some { name := name, host := host, port := port, username := username,
             auth_method := auth, remote_root := rr, key_path := kp,
             proxy_jump := pj, ssh_config_path := scp, ssh_options := so }
    else none
  | _, _, _ => none

/-- `SiteStore.load` over a saved file: any per-record failure makes the
Python loader log and return the empty list. -/
def load_sites (items : List (List (String × JVal))) : List SiteConfig :=
  match items.mapM load_site with
  | some l => l
  | none => []

/-- The transformation a round trip applies to a site record: persisted
fields survive except that an empty `remote_root` reloads as `"/"`; the
runtime-only fields (`password`, `key_passphrase`, `mscp_path`) come back
absent. -/
def scrub (c : SiteConfig) : SiteConfig :=
  { c with remote_root := if c.remote_root = "" then "/" else c.remote_root,
           password := none, key_passphrase := none, mscp_path := none }

/-! ## Parallel engine small-file delegation (src/engines/parallel_sftp_engine.py) -/

/-- Single-session `uploadFile` contract (src/engines/sftp_engine.py lines
228-252 for the sandbox/normalize structure; the `checkInterrupt`/`offset`
parameters are modelled from the spec §4.4, the version under src/ lacking
them — see the C3 analysis).  The wire write, the progress callback and the
interrupt hook are abstracted into `put`, applied to the local path, the
normalized remote path and the callers given `callback`/`check_interrupt`
arguments. -/
def sftp_upload_file_spec {R CB CI : Type} (put : String → String → CB → CI → R)
    (remote_root local_path remote_path : String) (cb : CB) (ci : CI) :
    Except String R :=
  match ensure_in_sandbox remote_path remote_root with
  | .validationFailed => .error "ValidationFailed"
  | .passed => .ok (put local_path (normalize_remote_path remote_path) cb ci)

/-- `ParallelSftpEngine.upload_file` (src/engines/parallel_sftp_engine.py
lines 130-152): sandbox check, normalization, then — when the file size is
below the chunk size — delegation of the whole transfer to the
single-session engine with the same callback and interrupt arguments; the
chunked path taken for large files is abstracted as `big`. -/
def parallel_upload_file {R CB CI : Type} (put : String → String → CB → CI → R)
    (big : String → Except String R) (chunk_size file_size : Nat)
    (remote_root local_path remote_path : String) (cb : CB) (ci : CI) :
    Except String R :=
  match ensure_in_sandbox remote_path remote_root with
  | .validationFailed => .error "ValidationFailed"
  | .passed =>
    let nr := normalize_remote_path remote_path
    if file_size < chunk_size then
      sftp_upload_file_spec put remote_root local_path nr cb ci
    else big nr

/-- Single-session `downloadFile` contract, mirror of
`sftp_upload_file_spec` (src/engines/sftp_engine.py lines 254-281; the
`checkInterrupt`/`offset` parameters modelled from the spec §4.4). -/
def sftp_download_file_spec {R CB CI : Type} (get : String → String → CB → CI → R)
    (remote_root remote_path local_path : String) (cb : CB) (ci : CI) :
    Except String R :=
  match ensure_in_sandbox remote_path remote_root with
  | .validationFailed => .error "ValidationFailed"
  | .passed => .ok (get (normalize_remote_path remote_path) local_path cb ci)

/-- `ParallelSftpEngine.download_file` small-file path
(src/engines/parallel_sftp_engine.py lines 291-319): sandbox check,
normalization, remote stat for the size, then delegation below the chunk
size. -/
def parallel_download_file {R CB CI : Type} (get : String → String → CB → CI → R)
    (big : String → Except String R) (chunk_size file_size : Nat)
    (remote_root remote_path local_path : String) (cb : CB) (ci : CI) :
    Except String R :=
  match ensure_in_sandbox remote_path remote_root with
  | .validationFailed => .error "ValidationFailed"
  | .passed =>
    let nr := normalize_remote_path remote_path
    if file_size < chunk_size then
      sftp_download_file_spec get remote_root nr local_path cb ci
    else big nr

/-! ## Lemmas: splitting and joining on slashes -/

theorem splitSlash_nil : splitSlash [] = [[]] := rfl

theorem splitSlash_cons (c : Char) (l : List Char) :
    splitSlash (c :: l) = splitStep c (splitSlash l) := rfl

theorem splitSlash_ne_nil (l : List Char) : splitSlash l ≠ [] := by
  induction l with
  | nil => simp [splitSlash]
  | cons c rest ih =>
    rw [splitSlash_cons]
    unfold splitStep
    split
    · simp
    · match h : splitSlash rest with
      | [] => exact absurd h ih
      | x :: xs => simp

theorem no_slash_of_mem_splitSlash :
    ∀ (l : List Char) (c : List Char), c ∈ splitSlash l → '/' ∉ c := by
  intro l
  induction l with
  | nil => intro c hc; simp [splitSlash] at hc; simp [hc]
  | cons a rest ih =>
    intro c hc
    rw [splitSlash_cons] at hc
    unfold splitStep at hc
    split at hc
    · rcases List.mem_cons.mp hc with h | h
      · simp [h]
      · exact ih c h
    · rename_i ha
      match hsp : splitSlash rest with
      | [] => exact absurd hsp (splitSlash_ne_nil rest)
      | x :: xs =>
        rw [hsp] at hc
        rcases List.mem_cons.mp hc with h | h
        · subst h
          intro hmem
          rcases List.mem_cons.mp hmem with h1 | h1
          · exact ha h1.symm
          · exact ih x (by rw [hsp]; exact List.mem_cons_self x xs) h1
        · exact ih c (by rw [hsp]; exact List.mem_cons_of_mem x h)

theorem splitSlash_append_slash (a b : List Char) :
    splitSlash (a ++ '/' :: b) = splitSlash a ++ splitSlash b := by
  induction a with
  | nil => simp [splitSlash, splitStep]
  | cons c a ih =>
    rw [List.cons_append, splitSlash_cons, ih, splitSlash_cons]
    unfold splitStep
    split
    · simp
    · match hsp : splitSlash a with
      | [] => exact absurd hsp (splitSlash_ne_nil a)
      | x :: xs => simp

theorem splitSlash_of_no_slash (c : List Char) (h : '/' ∉ c) :
    splitSlash c = [c] := by
  induction c with
  | nil => rfl
  | cons a c ih =>
    have ha : a ≠ '/' := by intro e; exact h (by simp [e])
    have hc : '/' ∉ c := by intro e; exact h (List.mem_cons_of_mem a e)
    rw [splitSlash_cons, ih hc]
    unfold splitStep
    simp [ha]

theorem joinSlash_cons_cons (c c2 : List Char) (cs : List (List Char)) :
    joinSlash (c :: c2 :: cs) = c ++ '/' :: joinSlash (c2 :: cs) := rfl

theorem splitSlash_joinSlash :
    ∀ (comps : List (List Char)), comps ≠ [] → (∀ c ∈ comps, '/' ∉ c) →
      splitSlash (joinSlash comps) = comps := by
  intro comps
  induction comps with
  | nil => intro h; exact absurd rfl h
  | cons c cs ih =>
    intro _ hall
    match cs with
    | [] =>
      show splitSlash (joinSlash [c]) = [c]
      exact splitSlash_of_no_slash c (hall c (List.mem_cons_self c []))
    | c2 :: cs2 =>
      rw [joinSlash_cons_cons, splitSlash_append_slash,
        splitSlash_of_no_slash c (hall c (List.mem_cons_self c _)),
        ih (by simp) (fun x hx => hall x (List.mem_cons_of_mem c hx))]
      rfl

theorem joinSlash_head (c : List Char) (cs : List (List Char)) (hc : c ≠ []) :
    (joinSlash (c :: cs)).head? = c.head? := by
  match cs with
  | [] => rfl
  | c2 :: cs2 =>
    rw [joinSlash_cons_cons]
    match c, hc with
    | a :: c3, _ => rfl

theorem joinSlash_ne_nil (c : List Char) (cs : List (List Char)) (hc : c ≠ []) :
    joinSlash (c :: cs) ≠ [] := by
  match cs with
  | [] => exact hc
  | c2 :: cs2 =>
    rw [joinSlash_cons_cons]
    match c, hc with
    | a :: c3, _ => simp

/-! ## Lemmas: the normpath component loop -/

theorem npStep_skip (absolute : Bool) (acc : List (List Char))
    (comp : List Char) (h : comp = [] ∨ comp = ['.']) :
    npStep absolute acc comp = acc := by
  unfold npStep
  rw [if_pos h]

theorem npStep_push (absolute : Bool) (acc : List (List Char))
    (comp : List Char) (h1 : ¬(comp = [] ∨ comp = ['.']))
    (h2 : comp ≠ ['.', '.'] ∨ (absolute = false ∧ acc = []) ∨
      acc.head? = some ['.', '.']) :
    npStep absolute acc comp = comp :: acc := by
  unfold npStep
  rw [if_neg h1, if_pos h2]

theorem npStep_pop (absolute : Bool) (acc : List (List Char))
    (comp : List Char) (h1 : ¬(comp = [] ∨ comp = ['.']))
    (h2 : ¬(comp ≠ ['.', '.'] ∨ (absolute = false ∧ acc = []) ∨
      acc.head? = some ['.', '.'])) :
    npStep absolute acc comp = acc.tail := by
  unfold npStep
  rw [if_neg h1, if_neg h2]

theorem foldl_npStep_good :
    ∀ (comps : List (List Char)) (acc : List (List Char)),
      (∀ c ∈ acc, GoodComp c) → (∀ c ∈ comps, '/' ∉ c) →
      ∀ c ∈ comps.foldl (npStep true) acc, GoodComp c := by
  intro comps
  induction comps with
  | nil => intro acc hacc _ c hc; exact hacc c hc
  | cons a comps ih =>
    intro acc hacc hns c hc
    rw [List.foldl_cons] at hc
    have hans : '/' ∉ a := hns a (List.mem_cons_self a comps)
    have htail : ∀ x ∈ comps, '/' ∉ x :=
      fun x hx => hns x (List.mem_cons_of_mem a hx)
    by_cases h1 : a = [] ∨ a = ['.']
    · rw [npStep_skip true acc a h1] at hc
      exact ih acc hacc htail c hc
    · by_cases hdd : a = ['.', '.']
      · have hhead : acc.head? ≠ some ['.', '.'] := by
          intro he
          match acc, he with
          | x :: xs, he =>
            have := (hacc x (List.mem_cons_self x xs)).2.2.1
            simp at he
            exact this he
        have h2 : ¬(a ≠ ['.', '.'] ∨ (true = false ∧ acc = []) ∨
            acc.head? = some ['.', '.']) := by
          intro hcon
          rcases hcon with hx | hx | hx
          · exact hx hdd
          · simp at hx
          · exact hhead hx
        rw [npStep_pop true acc a h1 h2] at hc
        exact ih acc.tail
          (fun x hx => hacc x (List.mem_of_mem_tail hx)) htail c hc
      · rw [npStep_push true acc a h1 (Or.inl hdd)] at hc
        refine ih (a :: acc) (fun x hx => ?_) htail c hc
        rcases List.mem_cons.mp hx with h | h
        · subst h
          refine ⟨fun he => h1 (Or.inl he), fun he => h1 (Or.inr he), hdd, hans⟩
        · exact hacc x h

theorem foldl_npStep_of_good :
    ∀ (comps : List (List Char)) (acc : List (List Char)),
      (∀ c ∈ comps, GoodComp c) →
      comps.foldl (npStep true) acc = comps.reverse ++ acc := by
  intro comps
  induction comps with
  | nil => intro acc _; simp
  | cons a comps ih =>
    intro acc hg
    have hga : GoodComp a := hg a (List.mem_cons_self a comps)
    rw [List.foldl_cons,
      npStep_push true acc a (by push_neg; exact ⟨hga.1, hga.2.1⟩)
        (Or.inl hga.2.2.1),
      ih (a :: acc) (fun x hx => hg x (List.mem_cons_of_mem a hx))]
    simp

theorem npComps_true_good (l : List Char) :
    ∀ c ∈ npComps true l, GoodComp c := by
  intro c hc
  unfold npComps at hc
  rw [List.mem_reverse] at hc
  exact foldl_npStep_good (splitSlash l) [] (by simp)
    (fun x hx => no_slash_of_mem_splitSlash l x hx) c hc

theorem head_ne_slash_of_good (c : List Char) (h : GoodComp c) :
    c.head? ≠ some '/' := by
  match c, h with
  | a :: c2, h =>
    intro he
    simp at he
    exact h.2.2.2 (by simp [he])

/-! ## Lemmas: the shape of normalized absolute paths -/

theorem normalizeL_of_one (l : List Char) (h : initSlashesL l = 1) :
    normalizeL l = '/' :: joinSlash (npComps true l) := by
  have hout : normpathL l = '/' :: joinSlash (npComps true l) := by
    simp only [normpathL, h, List.replicate_one, List.cons_append,
      List.nil_append]
    rw [if_neg (by simp)]
    norm_num
  simp [normalizeL, hout]

theorem normalizeL_of_two (l : List Char) (h : initSlashesL l = 2) :
    normalizeL l = '/' :: '/' :: joinSlash (npComps true l) := by
  have hrep : List.replicate 2 '/' = ['/', '/'] := rfl
  have hout : normpathL l = '/' :: '/' :: joinSlash (npComps true l) := by
    simp only [normpathL, h, hrep, List.cons_append, List.nil_append]
    rw [if_neg (by simp)]
    norm_num
  simp [normalizeL, hout]

theorem normalizeL_fix_one (comps : List (List Char))
    (h : ∀ c ∈ comps, GoodComp c) :
    normalizeL ('/' :: joinSlash comps) = '/' :: joinSlash comps := by
  match comps with
  | [] => decide
  | c :: cs =>
    have hgc : GoodComp c := h c (List.mem_cons_self c cs)
    have hne : joinSlash (c :: cs) ≠ [] := joinSlash_ne_nil c cs hgc.1
    have hhead : (joinSlash (c :: cs)).head? ≠ some '/' := by
      rw [joinSlash_head c cs hgc.1]
      exact head_ne_slash_of_good c hgc
    have hk : initSlashesL ('/' :: joinSlash (c :: cs)) = 1 := by
      unfold initSlashesL
      simp only [List.head?_cons, List.drop_one, List.tail_cons]
      simp [hhead]
    have hsplit : splitSlash ('/' :: joinSlash (c :: cs)) = [] :: c :: cs := by
      rw [splitSlash_cons]
      unfold splitStep
      rw [if_pos rfl,
        splitSlash_joinSlash (c :: cs) (by simp)
          (fun x hx => (h x hx).2.2.2)]
    have hcomps : npComps true ('/' :: joinSlash (c :: cs)) = c :: cs := by
      unfold npComps
      rw [hsplit, List.foldl_cons, npStep_skip true [] [] (Or.inl rfl),
        foldl_npStep_of_good (c :: cs) [] h]
      simp
    rw [normalizeL_of_one _ hk, hcomps]

theorem normalizeL_fix_two (comps : List (List Char))
    (h : ∀ c ∈ comps, GoodComp c) :
    normalizeL ('/' :: '/' :: joinSlash comps) = '/' :: '/' :: joinSlash comps := by
  match comps with
  | [] => decide
  | c :: cs =>
    have hgc : GoodComp c := h c (List.mem_cons_self c cs)
    have hhead : (joinSlash (c :: cs)).head? ≠ some '/' := by
      rw [joinSlash_head c cs hgc.1]
      exact head_ne_slash_of_good c hgc
    have hk : initSlashesL ('/' :: '/' :: joinSlash (c :: cs)) = 2 := by
      unfold initSlashesL
      simp only [List.head?_cons, List.drop_succ_cons, List.drop_zero,
        List.drop_one, List.tail_cons]
      simp [hhead]
    have hsplit : splitSlash ('/' :: '/' :: joinSlash (c :: cs)) =
        [] :: [] :: c :: cs := by
      rw [splitSlash_cons, splitSlash_cons,
        splitSlash_joinSlash (c :: cs) (by simp)
          (fun x hx => (h x hx).2.2.2)]
      unfold splitStep
      rw [if_pos rfl, if_pos rfl]
    have hcomps : npComps true ('/' :: '/' :: joinSlash (c :: cs)) = c :: cs := by
      unfold npComps
      rw [hsplit, List.foldl_cons, npStep_skip true [] [] (Or.inl rfl),
        List.foldl_cons, npStep_skip true [] [] (Or.inl rfl),
        foldl_npStep_of_good (c :: cs) [] h]
      simp
    rw [normalizeL_of_two _ hk, hcomps]

theorem normalizeL_idem_one (l : List Char) (h : initSlashesL l = 1) :
    normalizeL (normalizeL l) = normalizeL l := by
  rw [normalizeL_of_one l h]
  exact normalizeL_fix_one _ (npComps_true_good l)

theorem normalizeL_idem_two (l : List Char) (h : initSlashesL l = 2) :
    normalizeL (normalizeL l) = normalizeL l := by
  rw [normalizeL_of_two l h]
  exact normalizeL_fix_two _ (npComps_true_good l)

theorem initSlashesL_cases (l : List Char) :
    initSlashesL l = 0 ∨ initSlashesL l = 1 ∨ initSlashesL l = 2 := by
  unfold initSlashesL
  split_ifs <;> simp

theorem foldl_npStep_false_shape :
    ∀ (comps acc : List (List Char)), (∀ c ∈ comps, '/' ∉ c) →
      (∃ gs m, acc = gs ++ List.replicate m ['.', '.'] ∧ ∀ c ∈ gs, GoodComp c) →
      ∃ gs m, comps.foldl (npStep false) acc =
        gs ++ List.replicate m ['.', '.'] ∧ ∀ c ∈ gs, GoodComp c := by
  intro comps
  induction comps with
  | nil => intro acc _ hacc; simpa using hacc
  | cons a comps ih =>
    intro acc hns hacc
    obtain ⟨gs, m, heq, hgs⟩ := hacc
    have hans : '/' ∉ a := hns a (List.mem_cons_self a comps)
    have htail : ∀ x ∈ comps, '/' ∉ x :=
      fun x hx => hns x (List.mem_cons_of_mem a hx)
    rw [List.foldl_cons]
    by_cases h1 : a = [] ∨ a = ['.']
    · rw [npStep_skip false acc a h1]
      exact ih acc htail ⟨gs, m, heq, hgs⟩
    · by_cases hdd : a = ['.', '.']
      · by_cases hacc0 : acc = []
        · rw [npStep_push false acc a h1 (Or.inr (Or.inl ⟨rfl, hacc0⟩))]
          refine ih (a :: acc) htail ⟨[], m + 1, ?_, by simp⟩
          have hgs0 : gs = [] := by
            rcases gs with _ | ⟨g, gs2⟩
            · rfl
            · rw [heq] at hacc0; simp at hacc0
          have hm0 : m = 0 := by
            rw [heq, hgs0] at hacc0
            simpa using hacc0
          rw [hacc0, hdd, hm0]
          rfl
        · by_cases hhd : acc.head? = some ['.', '.']
          · rw [npStep_push false acc a h1 (Or.inr (Or.inr hhd))]
            have hgs0 : gs = [] := by
              rcases gs with _ | ⟨g, gs2⟩
              · rfl
              · rw [heq] at hhd
                simp at hhd
                exact absurd hhd ((hgs g (List.mem_cons_self g gs2)).2.2.1)
            refine ih (a :: acc) htail ⟨[], m + 1, ?_, by simp⟩
            rw [heq, hgs0, hdd]
            simp [List.replicate_succ]
          · have h2 : ¬(a ≠ ['.', '.'] ∨ (false = false ∧ acc = []) ∨
                acc.head? = some ['.', '.']) := by
              intro hcon
              rcases hcon with hx | hx | hx
              · exact hx hdd
              · exact hacc0 hx.2
              · exact hhd hx
            rw [npStep_pop false acc a h1 h2]
            rcases gs with _ | ⟨g, gs2⟩
            · exfalso
              rcases m with _ | m2
              · rw [heq] at hacc0; simp at hacc0
              · rw [heq] at hhd
                simp [List.replicate_succ] at hhd
            · refine ih acc.tail htail ⟨gs2, m, ?_, fun x hx =>
                hgs x (List.mem_cons_of_mem g hx)⟩
              rw [heq]
              simp
      · rw [npStep_push false acc a h1 (Or.inl hdd)]
        refine ih (a :: acc) htail ⟨a :: gs, m, by rw [heq]; rfl, fun x hx => ?_⟩
        rcases List.mem_cons.mp hx with h | h
        · subst h
          exact ⟨fun he => h1 (Or.inl he), fun he => h1 (Or.inr he), hdd, hans⟩
        · exact hgs x h

theorem npComps_false_shape (l : List Char) :
    ∃ m goods, npComps false l = List.replicate m ['.', '.'] ++ goods ∧
      ∀ c ∈ goods, GoodComp c := by
  obtain ⟨gs, m, heq, hgs⟩ := foldl_npStep_false_shape (splitSlash l) []
    (fun x hx => no_slash_of_mem_splitSlash l x hx) ⟨[], 0, rfl, by simp⟩
  refine ⟨m, gs.reverse, ?_, fun c hc => hgs c (List.mem_reverse.mp hc)⟩
  unfold npComps
  rw [heq]
  simp

theorem npComps_false_elems (l : List Char) :
    ∀ c ∈ npComps false l, c = ['.', '.'] ∨ GoodComp c := by
  obtain ⟨m, goods, heq, hg⟩ := npComps_false_shape l
  intro c hc
  rw [heq] at hc
  rcases List.mem_append.mp hc with h | h
  · exact Or.inl (List.eq_of_mem_replicate h)
  · exact Or.inr (hg c h)

theorem normalizeL_of_zero (l : List Char) (h : initSlashesL l = 0) :
    (npComps false l = [] ∧ normalizeL l = ['/', '.']) ∨
    (npComps false l ≠ [] ∧
      normalizeL l = '/' :: joinSlash (npComps false l)) := by
  have hmem := npComps_false_elems l
  match hC : npComps false l with
  | [] =>
    left
    refine ⟨rfl, ?_⟩
    have hout : normpathL l = ['.'] := by
      have hdec : (decide ((0 : Nat) ≠ 0)) = false := by decide
      simp only [normpathL, h, hdec, hC, List.replicate_zero, List.nil_append]
      rfl
    simp [normalizeL, hout]
  | c :: cs =>
    right
    have hcmem := hmem c (by rw [hC]; exact List.mem_cons_self c cs)
    have hcne : c ≠ [] := by
      rcases hcmem with h2 | h2
      · rw [h2]; simp
      · exact h2.1
    have hchead : c.head? ≠ some '/' := by
      rcases hcmem with h2 | h2
      · rw [h2]; simp
      · exact head_ne_slash_of_good c h2
    have hout : normpathL l = joinSlash (c :: cs) := by
      have hdec : (decide ((0 : Nat) ≠ 0)) = false := by decide
      simp only [normpathL, h, hdec, hC, List.replicate_zero, List.nil_append]
      rw [if_neg (joinSlash_ne_nil c cs hcne)]
    refine ⟨by simp, ?_⟩
    have hjh : (joinSlash (c :: cs)).head? ≠ some '/' := by
      rw [joinSlash_head c cs hcne]
      exact hchead
    simp only [normalizeL, hout]
    rw [if_neg hjh]

theorem startsWithL_iff :
    ∀ (pre s : List Char), startsWithL s pre = true ↔ ∃ t, s = pre ++ t := by
  intro pre
  induction pre with
  | nil => intro s; simp [startsWithL]
  | cons p pre ih =>
    intro s
    match s with
    | [] => simp [startsWithL]
    | c :: s2 =>
      unfold startsWithL
      by_cases hcp : c = p
      · rw [if_pos hcp, ih s2]
        constructor
        · rintro ⟨t, ht⟩
          exact ⟨t, by rw [hcp, ht]; rfl⟩
        · rintro ⟨t, ht⟩
          rw [List.cons_append] at ht
          injection ht with hx hy
          exact ⟨t, hy⟩
      · rw [if_neg hcp]
        simp only [Bool.false_eq_true, false_iff]
        rintro ⟨t, ht⟩
        rw [List.cons_append] at ht
        injection ht with hx hy
        exact hcp hx

theorem ensure_eq_passed_iff (path remote_root : String) :
    ensure_in_sandbox path remote_root = .passed ↔
      (normalize_remote_path path = normalize_remote_path remote_root ∨
        startsWithL (normalize_remote_path path).data
          ((normalize_remote_path remote_root).data ++ ['/']) = true) := by
  simp only [ensure_in_sandbox]
  split_ifs with h1 h2
  · simp [h1]
  · simp [h2]
  · simp [h1, h2]

theorem normalize_remote_path_data (s : String) :
    (normalize_remote_path s).data = normalizeL s.data := rfl

theorem normalize_idem_of_sandbox (remote_root p : String)
    (hr : initSlashesL remote_root.data = 1)
    (h : ensure_in_sandbox p remote_root = .passed) :
    normalize_remote_path (normalize_remote_path p) = normalize_remote_path p := by
  have hRg : ∀ c ∈ npComps true remote_root.data, GoodComp c :=
    npComps_true_good _
  have hroot : normalizeL remote_root.data =
      '/' :: joinSlash (npComps true remote_root.data) := normalizeL_of_one _ hr
  suffices hsuf : normalizeL (normalizeL p.data) = normalizeL p.data by
    show (⟨normalizeL (normalize_remote_path p).data⟩ : String) = ⟨normalizeL p.data⟩
    rw [normalize_remote_path_data]
    exact congrArg String.mk hsuf
  rcases initSlashesL_cases p.data with h0 | h1 | h2
  · rcases (ensure_eq_passed_iff p remote_root).mp h with heq | hsw
    · have hd : normalizeL p.data = normalizeL remote_root.data :=
        congrArg String.data heq
      rw [hd, hroot]
      exact normalizeL_fix_one _ hRg
    · obtain ⟨t, ht⟩ := (startsWithL_iff _ _).mp hsw
      rw [normalize_remote_path_data, normalize_remote_path_data, hroot] at ht
      rcases normalizeL_of_zero p.data h0 with ⟨hC, hval⟩ | ⟨hC, hval⟩
      · exfalso
        rw [hval, List.cons_append] at ht
        injection ht with hx hy
        simp only [List.append_eq, List.append_assoc,
          List.singleton_append] at hy
        match hL : joinSlash (npComps true remote_root.data), hy with
        | [], hy =>
          simp only [List.nil_append] at hy
          injection hy with h1 h2
          exact absurd h1 (by decide)
        | a :: as, hy =>
          rw [List.cons_append] at hy
          injection hy with h1 h2
          exact absurd h2.symm (by simp)
      · have hCns : ∀ x ∈ npComps false p.data, '/' ∉ x := by
          intro x hx
          rcases npComps_false_elems p.data x hx with he | he
          · rw [he]; simp
          · exact he.2.2.2
        have ht2 : joinSlash (npComps false p.data) =
            joinSlash (npComps true remote_root.data) ++ '/' :: t := by
          rw [hval, List.cons_append] at ht
          injection ht with hx hy
          simp only [List.append_eq, List.append_assoc,
            List.singleton_append] at hy
          exact hy
        have hsplit : npComps false p.data =
            splitSlash (joinSlash (npComps true remote_root.data)) ++
              splitSlash t := by
          rw [← splitSlash_append_slash, ← ht2,
            splitSlash_joinSlash _ hC hCns]
        obtain ⟨m, goods, hsh, hgoods⟩ := npComps_false_shape p.data
        rcases m with _ | m2
        · rw [List.replicate_zero, List.nil_append] at hsh
          rw [hval, hsh]
          exact normalizeL_fix_one goods hgoods
        · exfalso
          rw [List.replicate_succ, List.cons_append] at hsh
          match hRc : npComps true remote_root.data with
          | [] =>
            rw [hRc] at hsplit
            rw [hsh] at hsplit
            have : joinSlash ([] : List (List Char)) = [] := rfl
            rw [this] at hsplit
            rw [splitSlash_nil] at hsplit
            injection hsplit with hx hy
            simp at hx
          | r :: rs =>
            rw [hRc] at hsplit
            rw [splitSlash_joinSlash (r :: rs) (by simp)
              (fun x hx => (hRg x (by rw [hRc]; exact hx)).2.2.2)]
              at hsplit
            rw [hsh, List.cons_append] at hsplit
            injection hsplit with hx hy
            exact (hRg r (by rw [hRc]; exact List.mem_cons_self r rs)).2.2.1
              hx.symm
  · exact normalizeL_idem_one p.data h1
  · exact normalizeL_idem_two p.data h2

theorem ensure_normalize_passed (remote_root p : String)
    (hr : initSlashesL remote_root.data = 1)
    (h : ensure_in_sandbox p remote_root = .passed) :
    ensure_in_sandbox (normalize_remote_path p) remote_root = .passed := by
  have hid := normalize_idem_of_sandbox remote_root p hr h
  rw [ensure_eq_passed_iff] at h ⊢
  rwa [hid]

/-! ## Lemmas: separator and dot-component properties of normalized paths -/

theorem noAdjSlash_cons_of_ne (a : Char) (l : List Char) (ha : a ≠ '/') :
    noAdjSlash (a :: l) = noAdjSlash l := by
  match l with
  | [] => rfl
  | b :: r => simp [noAdjSlash, ha]

theorem noAdjSlash_slash_cons (b : Char) (r : List Char) (hb : b ≠ '/') :
    noAdjSlash ('/' :: b :: r) = noAdjSlash (b :: r) := by
  simp [noAdjSlash, hb]

theorem noAdjSlash_of_no_slash (c : List Char) (h : '/' ∉ c) :
    noAdjSlash c = true := by
  induction c with
  | nil => rfl
  | cons a c ih =>
    have ha : a ≠ '/' := fun e => h (by simp [e])
    rw [noAdjSlash_cons_of_ne a c ha]
    exact ih (fun e => h (List.mem_cons_of_mem a e))

theorem noAdjSlash_append (c l : List Char) (hc : '/' ∉ c)
    (hl : noAdjSlash l = true) : noAdjSlash (c ++ l) = true := by
  induction c with
  | nil => simpa using hl
  | cons a c ih =>
    have ha : a ≠ '/' := fun e => hc (by simp [e])
    rw [List.cons_append, noAdjSlash_cons_of_ne a _ ha]
    exact ih (fun e => hc (List.mem_cons_of_mem a e))

theorem noAdjSlash_slash_join :
    ∀ (comps : List (List Char)), (∀ c ∈ comps, GoodComp c) →
      noAdjSlash ('/' :: joinSlash comps) = true := by
  intro comps
  induction comps with
  | nil => intro _; rfl
  | cons c cs ih =>
    intro h
    have hgc : GoodComp c := h c (List.mem_cons_self c cs)
    obtain ⟨a, c3, rfl⟩ : ∃ a c3, c = a :: c3 := by
      match c, hgc.1 with
      | a :: c3, _ => exact ⟨a, c3, rfl⟩
    have ha : a ≠ '/' := fun e => hgc.2.2.2 (by simp [e])
    match cs with
    | [] =>
      show noAdjSlash ('/' :: a :: c3) = true
      rw [noAdjSlash_slash_cons a c3 ha]
      exact noAdjSlash_of_no_slash _ hgc.2.2.2
    | c2 :: cs2 =>
      rw [joinSlash_cons_cons, List.cons_append,
        noAdjSlash_slash_cons a _ ha, ← List.cons_append]
      exact noAdjSlash_append _ _ hgc.2.2.2
        (ih (fun x hx => h x (List.mem_cons_of_mem _ hx)))

theorem no_dots_of_one (l : List Char) (h : initSlashesL l = 1) :
    ['.'] ∉ splitSlash (normalizeL l) ∧
    ['.', '.'] ∉ splitSlash (normalizeL l) := by
  rw [normalizeL_of_one l h]
  have hg := npComps_true_good l
  match hC : npComps true l with
  | [] => decide
  | c :: cs =>
    have hsp : splitSlash ('/' :: joinSlash (c :: cs)) = [] :: c :: cs := by
      rw [splitSlash_cons]
      unfold splitStep
      rw [if_pos rfl,
        splitSlash_joinSlash (c :: cs) (by simp)
          (fun x hx => (hg x (by rw [hC]; exact hx)).2.2.2)]
    rw [hsp]
    constructor
    · intro hmem
      rcases List.mem_cons.mp hmem with hx | hx
      · simp at hx
      · exact (hg _ (by rw [hC]; exact hx)).2.1 rfl
    · intro hmem
      rcases List.mem_cons.mp hmem with hx | hx
      · simp at hx
      · exact (hg _ (by rw [hC]; exact hx)).2.2.1 rfl

theorem normalizeL_head_slash (l : List Char) :
    (normalizeL l).head? = some '/' := by
  simp only [normalizeL]
  split_ifs with h
  · exact h
  · rfl

/-! ## Claim theorems -/

/-- C1: `ensure_in_sandbox(p, r)` returns normally exactly when
`normalize(p)` equals `normalize(r)` or `normalize(p)` starts with
`normalize(r) + "/"`, and raises `ValidationFailed` otherwise; in particular
`ensure_in_sandbox("/a/b-other", "/a/b")` and
`ensure_in_sandbox("/a/b/../c", "/a/b")` raise while
`ensure_in_sandbox("/a/b/c", "/a/b")` returns normally. -/
theorem c1_ensure_in_sandbox_spec :
    (∀ p r : String, ensure_in_sandbox p r = .passed ↔
      (normalize_remote_path p = normalize_remote_path r ∨
        startsWithL (normalize_remote_path p).data
          ((normalize_remote_path r).data ++ ['/']) = true)) ∧
    (∀ p r : String, ensure_in_sandbox p r = .passed ∨
      ensure_in_sandbox p r = .validationFailed) ∧
    ensure_in_sandbox "/a/b-other" "/a/b" = .validationFailed ∧
    ensure_in_sandbox "/a/b/../c" "/a/b" = .validationFailed ∧
    ensure_in_sandbox "/a/b/c" "/a/b" = .passed := by
  refine ⟨ensure_eq_passed_iff, fun p r => ?_, by decide, by decide, by decide⟩
  cases h : ensure_in_sandbox p r with
  | passed => exact Or.inl rfl
  | validationFailed => exact Or.inr rfl

/-- C5, as stated, is false on the code: POSIX `normpath` preserves a
leading double slash, so `normalize("//a/./b/../c//")` is `"//a/c"`, not the
claimed `"/a/c"`; and on relative climbing input idempotence fails:
`normalize("..") = "/.."` while `normalize("/..") = "/"`. -/
theorem c5_counterexample :
    normalize_remote_path "//a/./b/../c//" = "//a/c" ∧
    ("//a/c" : String) ≠ "/a/c" ∧
    normalize_remote_path (normalize_remote_path "..") ≠
      normalize_remote_path ".." := by
  refine ⟨by decide, by decide, by decide⟩

/-- C5 (amended): for every input that begins with a slash but not with
exactly two slashes (`initSlashesL = 1`), `normalize` is idempotent, its
result is absolute and contains no `"."` or `".."` components and no
duplicate `/` separators; for every input whatsoever the result is absolute;
and `normalize("//a/./b/../c//") = "//a/c"` (two leading slashes preserved)
while `normalize("/a/./b/../c//") = "/a/c"`. -/
theorem c5_normalize_normal_form :
    (∀ p : String, initSlashesL p.data = 1 →
      normalize_remote_path (normalize_remote_path p) = normalize_remote_path p ∧
      (normalize_remote_path p).data.head? = some '/' ∧
      ['.'] ∉ splitSlash (normalize_remote_path p).data ∧
      ['.', '.'] ∉ splitSlash (normalize_remote_path p).data ∧
      noAdjSlash (normalize_remote_path p).data = true) ∧
    (∀ p : String, (normalize_remote_path p).data.head? = some '/') ∧
    normalize_remote_path "//a/./b/../c//" = "//a/c" ∧
    normalize_remote_path "/a/./b/../c//" = "/a/c" := by
  refine ⟨fun p hp => ?_, fun p => normalizeL_head_slash p.data,
    by decide, by decide⟩
  have hidem : normalizeL (normalizeL p.data) = normalizeL p.data :=
    normalizeL_idem_one p.data hp
  refine ⟨?_, normalizeL_head_slash p.data, (no_dots_of_one p.data hp).1,
    (no_dots_of_one p.data hp).2, ?_⟩
  · show (⟨normalizeL (normalize_remote_path p).data⟩ : String) =
      ⟨normalizeL p.data⟩
    rw [normalize_remote_path_data]
    exact congrArg String.mk hidem
  · rw [normalize_remote_path_data, normalizeL_of_one p.data hp]
    exact noAdjSlash_slash_join _ (npComps_true_good p.data)

/-- Witness for C5 at the concrete input `"/x/.."`. -/
theorem c5_witness :
    initSlashesL ("/x/.." : String).data = 1 ∧
    normalize_remote_path (normalize_remote_path "/x/..") =
      normalize_remote_path "/x/.." :=
  ⟨by decide, (c5_normalize_normal_form.1 "/x/.." (by decide)).1⟩

/-- C10: a parallel transfer whose file size is strictly below the chunk
size delegates to the single-session engine and produces the same result as
invoking the single-session engine directly with the same callback and
interrupt arguments (for any site whose `remote_root` is an absolute path
without a POSIX-reserved leading double slash, as the data model requires). -/
theorem c10_small_file_delegates {R CB CI : Type}
    (put get : String → String → CB → CI → R)
    (bigU bigD : String → Except String R)
    (chunk_size file_size : Nat)
    (remote_root local_path remote_path : String) (cb : CB) (ci : CI)
    (hroot : initSlashesL remote_root.data = 1)
    (hsize : file_size < chunk_size) :
    parallel_upload_file put bigU chunk_size file_size remote_root
        local_path remote_path cb ci =
      sftp_upload_file_spec put remote_root local_path remote_path cb ci ∧
    parallel_download_file get bigD chunk_size file_size remote_root
        remote_path local_path cb ci =
      sftp_download_file_spec get remote_root remote_path local_path cb ci := by
  cases hs : ensure_in_sandbox remote_path remote_root with
  | validationFailed =>
    constructor
    · simp only [parallel_upload_file, sftp_upload_file_spec, hs]
    · simp only [parallel_download_file, sftp_download_file_spec, hs]
  | passed =>
    have h2 := ensure_normalize_passed remote_root remote_path hroot hs
    have hid := normalize_idem_of_sandbox remote_root remote_path hroot hs
    constructor
    · simp only [parallel_upload_file, sftp_upload_file_spec, hs,
        if_pos hsize, h2, hid]
    · simp only [parallel_download_file, sftp_download_file_spec, hs,
        if_pos hsize, h2, hid]

/-- Witness for C10 at a concrete site, path, size and wire. -/
theorem c10_witness :
    initSlashesL ("/r" : String).data = 1 ∧ (5 : Nat) < 100 ∧
    parallel_upload_file (fun _ _ _ _ => (0 : Nat))
        (fun _ => Except.error "big") 100 5 "/r" "f" "/r/f" () () =
      sftp_upload_file_spec (fun _ _ _ _ => (0 : Nat)) "/r" "f" "/r/f" () () :=
  ⟨by decide, by decide,
    (c10_small_file_delegates (fun _ _ _ _ => (0 : Nat))
      (fun _ _ _ _ => (0 : Nat)) (fun _ => Except.error "big")
      (fun _ => Except.error "big") 100 5 "/r" "f" "/r/f" () ()
      (by decide) (by decide)).1⟩

/-- C2: `remove_dir_recursive` rejects `"/"` and the configured `remoteRoot`
without issuing anything on the wire, requires the sandbox check, and
otherwise issues exactly `rm -rf <normalized-path>` (single-quoted) on the exec channel,
succeeding iff the exit status is 0. -/
theorem c2_remove_dir_recursive_spec (wire : String → Nat)
    (remote_root path : String) :
    ((normalize_remote_path path = "/" ∨
        normalize_remote_path path = normalize_remote_path remote_root) →
      remove_dir_recursive wire remote_root path = ([], .refusedRoot)) ∧
    (ensure_in_sandbox path remote_root = .validationFailed →
      (remove_dir_recursive wire remote_root path).1 = []) ∧
    (¬(normalize_remote_path path = "/" ∨
        normalize_remote_path path = normalize_remote_path remote_root) →
      ensure_in_sandbox path remote_root = .passed →
      remove_dir_recursive wire remote_root path =
        ([rd_command path],
          if wire (rd_command path) = 0 then .ok else .exitNonzero)) ∧
    rd_command path = "rm -rf " ++ squote (normalize_remote_path path) := by
  refine ⟨fun hg => ?_, fun hv => ?_, fun hg hp => ?_, rfl⟩
  · simp only [remove_dir_recursive, if_pos hg]
  · by_cases hg : normalize_remote_path path = "/" ∨
        normalize_remote_path path = normalize_remote_path remote_root
    · simp only [remove_dir_recursive, if_pos hg]
    · simp only [remove_dir_recursive, if_neg hg, hv]
  · simp only [remove_dir_recursive, if_neg hg, hp]
    split_ifs <;> rfl

/-- Witness for C2: with a wire that always exits 0 and sandbox root
`/sandbox`, deleting the root itself is refused with no command issued,
while deleting `/sandbox/folder` issues the single `rm -rf` command and
succeeds. -/
theorem c2_witness :
    remove_dir_recursive (fun _ => 0) "/sandbox" "/sandbox" =
      ([], .refusedRoot) ∧
    remove_dir_recursive (fun _ => 0) "/sandbox" "/sandbox/folder" =
      ([rd_command "/sandbox/folder"], .ok) := by
  constructor
  · exact (c2_remove_dir_recursive_spec (fun _ => 0) "/sandbox" "/sandbox").1
      (Or.inr (by decide))
  · have h := (c2_remove_dir_recursive_spec (fun _ => 0) "/sandbox"
      "/sandbox/folder").2.2.1 (by decide) (by decide)
    rw [h]
    decide

/-- C3 (code-bug evidence): the claim says `SftpEngine.upload_file` and
`download_file` accept an `offset` parameter (default 0) and resume from it,
and the scheduler indeed calls them with `callback`, `check_interrupt` and
`offset` keywords — but the functions as defined in src accept neither
`offset` nor `check_interrupt`, so every such call raises `TypeError`. -/
theorem c3_offset_not_accepted :
    python_kwargs_accepted sftp_upload_file_params
      scheduler_transfer_call_kwargs = false ∧
    python_kwargs_accepted sftp_download_file_params
      scheduler_transfer_call_kwargs = false ∧
    memStr "offset" scheduler_transfer_call_kwargs = true ∧
    memStr "offset" sftp_upload_file_params = false ∧
    memStr "check_interrupt" sftp_upload_file_params = false ∧
    memStr "offset" sftp_download_file_params = false := by decide

/-- C4 (code-bug evidence): the state machine of src/core/task_state.py has
no `skipped` state — `is_valid_transition "running" "skipped"` is false and
`Task.is_finished` excludes `skipped` — even though the scheduler itself
performs `running → skipped` in its smart pre-check and `restart_task`
treats `skipped` as terminal, as the specification §4.6 machine does. -/
theorem c4_skipped_not_in_machine :
    is_valid_transition "running" "skipped" = false ∧
    task_is_finished "skipped" = false ∧
    memStr "skipped" restart_accepted_states = true ∧
    (execute_upload_step { status := "running" } 5 (some 5)).1.status =
      "skipped" ∧
    is_valid_transition "running" "done" = true ∧
    is_valid_transition "running" "failed" = true ∧
    is_valid_transition "running" "paused" = true ∧
    is_valid_transition "running" "canceled" = true := by decide

/-- C6: the smart pre-check of the scheduler marks the task `skipped` with
`bytes_done = S` and issues no transfer when the destination already has the
local size `S`; resumes with `offset = remote size` when the remote is
smaller; and overwrites from offset 0 when the remote is larger or the stat
failed. -/
theorem c6_smart_precheck_spec (t : Task) (S : Nat) (rs : Option Nat) :
    (rs = some S →
      execute_upload_step t S rs =
        ({ t with status := "skipped", skipped := true, bytes_done := S },
          none)) ∧
    (∀ r, rs = some r → r < S → execute_upload_step t S rs = (t, some r)) ∧
    (∀ r, rs = some r → S < r → execute_upload_step t S rs = (t, some 0)) ∧
    (rs = none → execute_upload_step t S rs = (t, some 0)) := by
  refine ⟨fun h => ?_, fun r h hr => ?_, fun r h hr => ?_, fun h => ?_⟩
  · subst h
    simp [execute_upload_step, smart_precheck]
  · subst h
    simp only [execute_upload_step, smart_precheck]
    rw [if_neg (by omega : ¬ r = S), if_pos hr]
  · subst h
    simp only [execute_upload_step, smart_precheck]
    rw [if_neg (by omega : ¬ r = S), if_neg (by omega : ¬ r < S)]
  · subst h
    simp [execute_upload_step, smart_precheck]

/-- Witness for C6: a 10000-byte upload over an identical-size remote is
skipped with `bytes_done = 10000` and no transfer; over a 6000-byte remote
it resumes from offset 6000. -/
theorem c6_witness :
    execute_upload_step { status := "running" } 10000 (some 10000) =
      ({ status := "skipped", bytes_done := 10000, skipped := true }, none) ∧
    execute_upload_step { status := "running" } 10000 (some 6000) =
      ({ status := "running" }, some 6000) :=
  ⟨(c6_smart_precheck_spec { status := "running" } 10000 (some 10000)).1 rfl,
    (c6_smart_precheck_spec { status := "running" } 10000
      (some 6000)).2.1 6000 rfl (by decide)⟩

theorem successCount_eq_zero (l : List TransferRecord)
    (h : ∀ r ∈ l, r.success = false) : successCount l = 0 := by
  simp only [successCount, List.length_eq_zero]
  rw [List.filter_eq_nil_iff]
  intro a ha
  simp [h a ha]

theorem indexOfStr_lt_length (x : String) :
    ∀ (l : List String) (i : Nat), indexOfStr x l = some i → i < l.length := by
  intro l
  induction l with
  | nil => intro i h; simp [indexOfStr] at h
  | cons y rest ih =>
    intro i h
    unfold indexOfStr at h
    simp only [List.length_cons]
    split_ifs at h with hx
    · injection h with h
      omega
    · match hr : indexOfStr x rest with
      | none => rw [hr] at h; simp at h
      | some i2 =>
        rw [hr] at h
        simp at h
        have hlt := ih i2 hr
        omega

/-- C7: with `currentPreset = medium`, the cooldown elapsed and a considered
window of at least 3 records that are all failures, `get_recommended_preset`
returns `"low"`, sets `current_preset` to `"low"` and `last_preset_change`
to now (and persists); and the collector moves the preset down only when the
window success rate is below `1 - 0.20` and a lower rung exists, by exactly
one rung. -/
theorem c7_adaptive_downgrade (st : MetricsState) (now : Int)
    (hm : st.current_preset = "medium")
    (hne : st.records ≠ [])
    (hcd : 300 ≤ now - st.last_preset_change)
    (hlen : 3 ≤ (windowOf st).length)
    (hfail : ∀ r ∈ windowOf st, r.success = false) :
    get_recommended_preset st now =
      some ("low",
        { st with current_preset := "low", last_preset_change := now },
        true) ∧
    (∀ (st2 : MetricsState) (now2 : Int) (p : String) (ns : MetricsState)
        (sv : Bool) (i j : Nat),
      get_recommended_preset st2 now2 = some (p, ns, sv) →
      indexOfStr st2.current_preset PRESET_ORDER = some i →
      indexOfStr ns.current_preset PRESET_ORDER = some j →
      j < i →
      5 * successCount (windowOf st2) < 4 * (windowOf st2).length ∧
        0 < i ∧ j + 1 = i ∧ p = ns.current_preset ∧ sv = true) := by
  constructor
  · have hsc := successCount_eq_zero (windowOf st) hfail
    simp only [get_recommended_preset, hm, hsc,
      show indexOfStr "medium" PRESET_ORDER = some 1 from by decide]
    rw [if_neg hne, if_neg (by omega : ¬ now - st.last_preset_change < 300),
      if_neg (by omega : ¬ (windowOf st).length < 3),
      if_pos (show 5 * 0 < 4 * (windowOf st).length ∧ 0 < 1 from
        ⟨by omega, by omega⟩)]
    rfl
  · intro st2 now2 p ns sv i j hcall hi hj hij
    have hilt : i < 3 := by
      have hlen3 := indexOfStr_lt_length st2.current_preset PRESET_ORDER i hi
      simpa [PRESET_ORDER] using hlen3
    simp only [get_recommended_preset, hi] at hcall
    split_ifs at hcall with h0 hcd2 h3 hd hu
    · injection hcall with hcall
      injection hcall with hp hcall
      injection hcall with hns hsv
      rw [← hns] at hj
      rw [hi] at hj
      injection hj with hj
      omega
    · injection hcall with hcall
      injection hcall with hp hcall
      injection hcall with hns hsv
      rw [← hns] at hj
      rw [hi] at hj
      injection hj with hj
      omega
    · injection hcall with hcall
      injection hcall with hp hcall
      injection hcall with hns hsv
      rw [← hns] at hj
      rw [hi] at hj
      injection hj with hj
      omega
    · injection hcall with hcall
      injection hcall with hp hcall
      injection hcall with hns hsv
      have hnsc : ns.current_preset =
          PRESET_ORDER.getD (i - 1) st2.current_preset := by
        rw [← hns]
      have hi12 : i = 1 ∨ i = 2 := by omega
      rcases hi12 with hi1 | hi2
      · subst hi1
        rw [show PRESET_ORDER.getD (1 - 1) st2.current_preset = "low"
          from rfl] at hnsc
        rw [hnsc, show indexOfStr "low" PRESET_ORDER = some 0 from by decide]
          at hj
        injection hj with hj
        refine ⟨hd.1, hd.2, by omega, ?_, hsv.symm⟩
        rw [← hp, hnsc]
        rfl
      · subst hi2
        rw [show PRESET_ORDER.getD (2 - 1) st2.current_preset = "medium"
          from rfl] at hnsc
        rw [hnsc,
          show indexOfStr "medium" PRESET_ORDER = some 1 from by decide]
          at hj
        injection hj with hj
        refine ⟨hd.1, hd.2, by omega, ?_, hsv.symm⟩
        rw [← hp, hnsc]
        rfl
    · exfalso
      injection hcall with hcall
      injection hcall with hp hcall
      injection hcall with hns hsv
      have hnsc : ns.current_preset =
          PRESET_ORDER.getD (i + 1) st2.current_preset := by
        rw [← hns]
      have hi01 : i = 0 ∨ i = 1 := by omega
      rcases hi01 with hi0 | hi1
      · subst hi0
        rw [show PRESET_ORDER.getD (0 + 1) st2.current_preset = "medium"
          from rfl] at hnsc
        rw [hnsc,
          show indexOfStr "medium" PRESET_ORDER = some 1 from by decide]
          at hj
        injection hj with hj
        omega
      · subst hi1
        rw [show PRESET_ORDER.getD (1 + 1) st2.current_preset = "high"
          from rfl] at hnsc
        rw [hnsc, show indexOfStr "high" PRESET_ORDER = some 2 from by decide]
          at hj
        injection hj with hj
        omega
    · injection hcall with hcall
      injection hcall with hp hcall
      injection hcall with hns hsv
      rw [← hns] at hj
      rw [hi] at hj
      injection hj with hj
      omega

/-- Witness for C7: five failed `medium` records, cooldown elapsed. -/
theorem c7_witness :
    get_recommended_preset
        ⟨List.replicate 5 ⟨"medium", 0, 0, false, 0⟩, "medium", 0⟩ 400 =
      some ("low",
        ⟨List.replicate 5 ⟨"medium", 0, 0, false, 0⟩, "low", 400⟩, true) :=
  (c7_adaptive_downgrade
    ⟨List.replicate 5 ⟨"medium", 0, 0, false, 0⟩, "medium", 0⟩ 400
    rfl (by decide) (by decide) (by decide) (by decide)).1

/-- C8, as stated, is false on the code: the empty-records branch precedes
the cooldown branch, so a collector whose loaded state has no records and
`current_preset = "medium"` returns `"low"` (not the current preset) during
the cooldown — though its state is indeed left unchanged. -/
theorem c8_counterexample :
    (1100 : Int) - 1000 < 300 ∧
    get_recommended_preset ⟨[], "medium", 1000⟩ 1100 =
      some ("low", ⟨[], "medium", 1000⟩, false) ∧
    ("low" : String) ≠ "medium" := by
  refine ⟨by decide, by decide, by decide⟩

/-- C8 (amended): every call made while `now - lastPresetChange < 300`
leaves the collector state unchanged and does not persist; it returns the
current preset whenever any record exists, and the `"low"` default on an
empty history. -/
theorem c8_cooldown_frame (st : MetricsState) (now : Int)
    (h : now - st.last_preset_change < 300) :
    get_recommended_preset st now =
      some ((if st.records = [] then "low" else st.current_preset), st,
        false) := by
  simp only [get_recommended_preset]
  by_cases h0 : st.records = []
  · rw [if_pos h0, if_pos h0]
  · rw [if_neg h0, if_neg h0, if_pos h]

/-- Witness for C8 with a nonempty history. -/
theorem c8_witness :
    get_recommended_preset ⟨[⟨"high", 0, 0, true, 0⟩], "high", 0⟩ 100 =
      some ((if ([⟨"high", 0, 0, true, 0⟩] : List TransferRecord) = []
        then "low" else "high"),
        ⟨[⟨"high", 0, 0, true, 0⟩], "high", 0⟩, false) :=
  c8_cooldown_frame ⟨[⟨"high", 0, 0, true, 0⟩], "high", 0⟩ 100 (by decide)

theorem load_save_site (c : SiteConfig)
    (hv : (c.auth_method = "password" ∨ c.auth_method = "key") ∧
      0 < c.port ∧ c.port ≤ 65535) :
    load_site (save_site c) = some (scrub c) := by
  simp only [load_site, save_site, jget]
  simp only [String.reduceEq, reduceIte]
  rw [if_pos hv]
  rfl

theorem load_save_sites (sites : List SiteConfig)
    (hv : ∀ c ∈ sites, (c.auth_method = "password" ∨ c.auth_method = "key") ∧
      0 < c.port ∧ c.port ≤ 65535) :
    (sites.map save_site).mapM load_site = some (sites.map scrub) := by
  induction sites with
  | nil => rfl
  | cons c cs ih =>
    rw [List.map_cons, List.map_cons, List.mapM_cons,
      load_save_site c (hv c (List.mem_cons_self c cs)),
      ih (fun x hx => hv x (List.mem_cons_of_mem c hx))]
    rfl

/-- C9, as stated, is false on the code: `remote_root` is a persisted,
non-secret field, yet a site saved with `remote_root = ""` loads back with
`remote_root = "/"` (`item.get("remote_root", "/") or "/"`). -/
theorem c9_counterexample :
    load_sites (save_sites
        [⟨"a", "h", 22, "u", "password", "", none, none, none, none, none,
          none, []⟩]) =
      [⟨"a", "h", 22, "u", "password", "/", none, none, none, none, none,
        none, []⟩] ∧
    ("" : String) ≠ "/" := by
  refine ⟨by decide, by decide⟩

/-- C9 (amended): `SiteStore.save` writes each site with exactly the ten
persistable keys — never `password` or `key_passphrase` — and loading the
saved file returns the records unchanged on every persisted field except
that an empty `remote_root` comes back as `"/"`; the runtime-only fields
(`password`, `key_passphrase`, `mscp_path`) come back absent. -/
theorem c9_sites_roundtrip (sites : List SiteConfig)
    (hv : ∀ c ∈ sites, (c.auth_method = "password" ∨ c.auth_method = "key") ∧
      0 < c.port ∧ c.port ≤ 65535) :
    (∀ c ∈ sites, (save_site c).map Prod.fst = persistFields) ∧
    memStr "password" persistFields = false ∧
    memStr "key_passphrase" persistFields = false ∧
    load_sites (save_sites sites) = sites.map scrub := by
  refine ⟨fun c _ => rfl, by decide, by decide, ?_⟩
  simp only [load_sites, save_sites, load_save_sites sites hv]

/-- Witness for C9 at a concrete site carrying runtime secrets. -/
theorem c9_witness :
    load_sites (save_sites
        [⟨"a", "h", 22, "u", "key", "/data", some "pw", some "/id", some "kp",
          some "/usr/bin/mscp", none, none, []⟩]) =
      [scrub ⟨"a", "h", 22, "u", "key", "/data", some "pw", some "/id",
        some "kp", some "/usr/bin/mscp", none, none, []⟩] :=
  (c9_sites_roundtrip
    [⟨"a", "h", 22, "u", "key", "/data", some "pw", some "/id", some "kp",
      some "/usr/bin/mscp", none, none, []⟩] (by decide)).2.2.2


end SSHFerry
